import Mathlib

/-!
Shallow embedding of `src/transition.js` (the `RouteTransition` pipeline of
Kocal/vue-router): the reusability phase of `start`, the sequential queue
runner `runQueue`, the hook invocation protocol `callHook` with its local
`next` / `abort` / `onError` closures, and the control surface
`abort` / `redirect`.

Modelling conventions:
  - A JavaScript runtime value that matters here (truthiness, `instanceof
    Error`, `new Error(v)`) is a `JSVal`.
  - The mutable transition/router state is a `St`: the sticky `aborted`
    flag, the router's current-location record (written by
    `router._updateRoute`), and an event trace recording every externally
    observable action (`router.replace`, `util.warn`, a rethrown error,
    the pipeline hook dispatches, the commit-point update, `reuse` /
    `activate` notifications and the final `cb()`).
  - A rethrown error carries a `Bool` that is `true` when the `throw` in
    `onError` runs synchronously at the `hook.call` site (the hook threw)
    and `false` when it runs inside a promise reaction (a later tick).
  - A user hook is a `HookRun`: the calls it makes on the exposed
    transition object while its body runs, then its return value
    (throw / boolean / thenable / anything else).
  - Out-of-bounds JavaScript array reads (`aq[i]` past the end) are
    `Option` reads returning `none`, standing for `undefined`.
-/

/-- A JavaScript value, as far as `transition.js` inspects one: truthiness
in `if (err && ...)`, `err instanceof Error`, and `new Error(err)`. -/
inductive JSVal where
  | vUndefined
  | vNull
  | vBool (b : Bool)
  | vNum (n : Int)
  | vStr (s : String)
  | vError (msg : String)
  deriving DecidableEq, Repr

/-- JavaScript truthiness of a `JSVal` (`undefined`, `null`, `false`, `0`
and `""` are falsy; an `Error` object is truthy). -/
def truthy : JSVal → Bool
  | JSVal.vUndefined => false
  | JSVal.vNull => false
  | JSVal.vBool b => b
  | JSVal.vNum n => n != 0
  | JSVal.vStr s => s != ""
  | JSVal.vError _ => true

/-- `err instanceof Error`. -/
def isError : JSVal → Bool
  | JSVal.vError _ => true
  | _ => false

/-- String conversion used by `new Error(err)` for a non-Error value. -/
def errString : JSVal → String
  | JSVal.vUndefined => "undefined"
  | JSVal.vNull => "null"
  | JSVal.vBool b => if b then "true" else "false"
  | JSVal.vNum n => toString n
  | JSVal.vStr s => s
  | JSVal.vError m => m

/-- `err instanceof Error ? err : new Error(err)` (transition.js line 208). -/
def normalizeErr (e : JSVal) : JSVal :=
  match e with
  | JSVal.vError _ => e
  | _ => JSVal.vError (errString e)

/-- An externally observable action of the transition machinery. `V` is the
type of router-view nodes (the deactivate queue's items), `H` the type of
route handlers (the activate queue's items). -/
inductive Ev (V H : Type) where
  | evCanDeactivate (v : V)
  | evCanActivate (h : H)
  | evDeactivate (v : V)
  | evUpdateRoute (path : String)
  | evReuse (v : V)
  | evActivate (v : V) (depth : Nat)
  | evDone
  | evWarn (msg : String)
  | evReplace (path : String)
  | evRaise (e : JSVal) (sync : Bool)
  | evCleanup
  | evCb (payload : Option JSVal)
  deriving DecidableEq, Repr

/-- The mutable state a `RouteTransition` touches: its own `aborted` flag,
the router's current-location record, and the trace of observable events. -/
structure St (V H : Type) where
  aborted : Bool
  current : String
  trace : List (Ev V H)
  deriving DecidableEq, Repr

variable {V H : Type}

/-- Record one observable event. -/
def emit (e : Ev V H) (s : St V H) : St V H :=
  { s with trace := s.trace ++ [e] }

/-- Record a list of observable events in order. -/
def appendTrace (es : List (Ev V H)) (s : St V H) : St V H :=
  { s with trace := s.trace ++ es }

/-- The immutable data of one `RouteTransition`: `to.path`, `from.path`
(`none` when `from` has no path), the router's `_suppress` flag, and
`util.mapParams(path, to.params, to.query)` from `redirect`, abstracted as
the path-rewriting function it denotes (util.js is outside this file's
sources; only that `redirect` pipes its argument through it matters here). -/
structure Transition where
  toPath : String
  fromPath : Option String
  suppress : Bool
  mapParams : String → String

/-- `this.from.path || '/'`: an absent or empty (falsy) path falls back to
the root path. -/
def pathOrRoot : Option String → String
  | none => "/"
  | some p => if p = "" then "/" else p

/-- `RouteTransition.prototype.abort` (lines 44-49): on the first call set
`aborted` and `router.replace(this.from.path || '/')`; later calls do
nothing. -/
def Transition.abort (cfg : Transition) (s : St V H) : St V H :=
  if s.aborted then s
  else { s with aborted := true,
                trace := s.trace ++ [Ev.evReplace (pathOrRoot cfg.fromPath)] }

/-- `RouteTransition.prototype.redirect` (lines 57-63): on the first call
set `aborted`, map params/query into the path and `router.replace` there;
later calls do nothing. -/
def Transition.redirect (cfg : Transition) (p : String) (s : St V H) : St V H :=
  if s.aborted then s
  else { s with aborted := true,
                trace := s.trace ++ [Ev.evReplace (cfg.mapParams p)] }

/-- A call the hook body makes on the exposed transition object. -/
inductive HookAct where
  | hNext (payload : Option JSVal)
  | hAbort
  | hRedirect (path : String)
  deriving DecidableEq, Repr

/-- Eventual behaviour of a thenable the hook returned. -/
inductive PromiseB where
  | resolves (v : JSVal)
  | rejects (e : JSVal)
  | pending
  deriving DecidableEq, Repr

/-- What `hook.call(context, exposed)` does at its end: throw, return a
boolean, return a thenable, or return anything else. -/
inductive HookRet where
  | hThrow (e : JSVal)
  | hBool (b : Bool)
  | hPromise (p : PromiseB)
  | hOther
  deriving DecidableEq, Repr

/-- One run of a user hook: the exposed-object calls its body makes in
order, then its return behaviour. -/
structure HookRun where
  acts : List HookAct
  ret : HookRet
  deriving DecidableEq, Repr

/-- The continuation `cb` handed to `callHook` (`runQueue`'s `nextStep`, or
`start`'s `cb`): it receives `next`'s optional payload. -/
def Cb (V H : Type) : Type :=
  Option JSVal → St V H → St V H

/-- The `onAfterCommit` cleanup handed to `callHook`. In `transition.js` it
is an external teardown closure over component internals; it cannot reach
the transition state, so it is modelled as the observable events it emits
when run. -/
def Cleanup (V H : Type) : Type :=
  Option (List (Ev V H))

/-- `cleanup && cleanup()`. -/
def applyCleanup (cl : Cleanup V H) (s : St V H) : St V H :=
  match cl with
  | some es => appendTrace es s
  | none => s

/-- Warning printed by a second `next()` call (line 184). -/
def nextOnceMsg : String := "transition.next() should be called only once."

/-- Warning printed before rethrowing a hook error (line 207). -/
def uncaughtMsg : String := "Uncaught error during transition: "

/-- The local `next` closure of `callHook` (lines 182-192), with the local
`nextCalled` flag threaded explicitly: warn and stop when already called;
otherwise mark it called and, when a `cb` exists and the transition is not
aborted, invoke `cb(data)`. Returns the new `nextCalled` and state. -/
def nextFn (cb : Option (Cb V H)) (payload : Option JSVal) (nc : Bool)
    (s : St V H) : Bool × St V H :=
  if nc then (true, emit (Ev.evWarn nextOnceMsg) s)
  else
    match cb with
    | none => (true, s)
    | some k => if s.aborted then (true, s) else (true, k payload s)

/-- The local `abort` closure of `callHook` (lines 195-198): run the
cleanup when one was supplied, then `transition.abort()`. -/
def abortFn (cfg : Transition) (cl : Cleanup V H) (s : St V H) : St V H :=
  cfg.abort (applyCleanup cl s)

/-- The local `onError` closure of `callHook` (lines 201-210): with a
cleanup supplied (post-commit phase) call `next()`, otherwise call the
local `abort()`; then, when the error is truthy and the router does not
suppress errors, warn and rethrow the error normalized to an `Error`.
`sync` records whether this rethrow happens synchronously at the
`hook.call` site or inside a promise reaction. -/
def onErrorFn (cfg : Transition) (cb : Option (Cb V H)) (cl : Cleanup V H)
    (sync : Bool) (err : JSVal) (nc : Bool) (s : St V H) : Bool × St V H :=
  let r :=
    match cl with
    | some _ => nextFn cb none nc s
    | none => (nc, abortFn cfg cl s)
  if truthy err && !cfg.suppress then
    (r.1, emit (Ev.evRaise (normalizeErr err) sync) (emit (Ev.evWarn uncaughtMsg) r.2))
  else r

/-- The calls the hook body makes on the exposed object, in order
(lines 215-228): `next` and `abort` are the local closures, `redirect`
delegates to `transition.redirect`. -/
def runActs (cfg : Transition) (cb : Option (Cb V H)) (cl : Cleanup V H) :
    List HookAct → Bool → St V H → Bool × St V H
  | [], nc, s => (nc, s)
  | a :: rest, nc, s =>
    match a with
    | HookAct.hNext p =>
      let r := nextFn cb p nc s
      runActs cfg cb cl rest r.1 r.2
    | HookAct.hAbort => runActs cfg cb cl rest nc (abortFn cfg cl s)
    | HookAct.hRedirect p => runActs cfg cb cl rest nc (cfg.redirect p s)

/-- `RouteTransition.prototype.callHook` (lines 177-246): run the hook body
(its exposed-object calls, `nextCalled` starting `false`); a throw goes to
`onError`; then a boolean return with `expectBoolean` advances or aborts, a
thenable's resolution advances (boolean-interpreted under `expectBoolean`,
as `next(value)` otherwise) and its rejection goes to `onError`; any other
return does nothing further. -/
def Transition.callHook (cfg : Transition) (run : HookRun)
    (cb : Option (Cb V H)) (expectBoolean : Bool) (cl : Cleanup V H)
    (s : St V H) : St V H :=
  let r := runActs cfg cb cl run.acts false s
  match run.ret with
  | HookRet.hThrow e => (onErrorFn cfg cb cl true e r.1 r.2).2
  | HookRet.hBool b =>
    if expectBoolean then
      if b then (nextFn cb none r.1 r.2).2 else abortFn cfg cl r.2
    else r.2
  | HookRet.hPromise pb =>
    match pb with
    | PromiseB.resolves v =>
      if expectBoolean then
        if truthy v then (nextFn cb none r.1 r.2).2 else abortFn cfg cl r.2
      else (nextFn cb (some v) r.1 r.2).2
    | PromiseB.rejects e => (onErrorFn cfg cb cl false e r.1 r.2).2
    | PromiseB.pending => r.2
  | HookRet.hOther => r.2

/-- The reusability loop of `start` (lines 104-108): `for (i = 0;
i < rdaq.length; i++) if (!canReuse(rdaq[i], aq[i], transition)) break`.
Returns the final `i`: the count of consecutive successes from index 0.
`aq[i]` past the end of `aq` is the absent value `none`. -/
def reuseCount (cr : V → Option H → Bool) : List V → List H → Nat
  | [], _ => 0
  | v :: vs, hs => if cr v hs.head? then reuseCount cr vs hs.tail + 1 else 0

/-- The arguments the reusability loop passes to `canReuse`, in call order:
one pair per index until (and including) the first failing index. -/
def reuseCalls (cr : V → Option H → Bool) : List V → List H →
    List (V × Option H)
  | [], _ => []
  | v :: vs, hs =>
    if cr v hs.head? then (v, hs.head?) :: reuseCalls cr vs hs.tail
    else [(v, hs.head?)]

/-- Phase 1 of `start` (lines 100-113): `rdaq` is the deactivate queue
reversed; after the loop, when `i > 0`, `reuseQueue = rdaq.slice(0, i)`,
the deactivate queue becomes `rdaq.slice(i).reverse()` and the activate
queue `aq.slice(i)`; when `i = 0` `reuseQueue` stays `undefined` and the
queues are untouched. Returns `(reuseQueue, daq, aq)`. -/
def phase1 (cr : V → Option H → Bool) (daq0 : List V) (aq0 : List H) :
    Option (List V) × List V × List H :=
  let rdaq := daq0.reverse
  let i := reuseCount cr rdaq aq0
  if i > 0 then (some (rdaq.take i), (rdaq.drop i).reverse, aq0.drop i)
  else (none, daq0, aq0)

/-- `RouteTransition.prototype.runQueue` (lines 152-164) in
continuation-passing form: an empty queue calls `cb` (`done`) at once;
otherwise the step function receives the item and the `nextStep`
continuation, which processes the rest of the queue. The step alone
decides whether `nextStep` ever fires. -/
def runQueue {α : Type} (step : α → (St V H → St V H) → St V H → St V H)
    (done : St V H → St V H) : List α → St V H → St V H
  | [], s => done s
  | x :: xs, s => step x (fun s2 => runQueue step done xs s2) s

/-- Modelled from the spec: the pipeline step wrappers
(`pipeline.canDeactivate` / `canActivate` / `deactivate`, whose file is not
among the sources). Per spec sections 4.1, 4.2 and 6, dispatching one queue
item invokes the externally supplied hook for that item through the Hook
Invocation Protocol (`transition.callHook`) with the queue's `nextStep` as
the advance continuation, the stated `expectBoolean` flag and no
post-commit cleanup; the dispatch itself is the observable hook call,
recorded by `mkEv`. `B` gives each item's hook behaviour. -/
def stepHook {α : Type} (cfg : Transition) (B : α → HookRun)
    (mkEv : α → Ev V H) (expectBoolean : Bool) (x : α)
    (k : St V H → St V H) (s : St V H) : St V H :=
  cfg.callHook (B x) (some (fun _ s2 => k s2)) expectBoolean none
    (emit (mkEv x) s)

/-- Modelled from the spec: `pipeline.canDeactivate`, dispatched with
`expectBoolean = true` (spec section 4.2, phase 2a). -/
def canDeactivateStep (cfg : Transition) (B : V → HookRun) :
    V → (St V H → St V H) → St V H → St V H :=
  stepHook cfg B Ev.evCanDeactivate true

/-- Modelled from the spec: `pipeline.canActivate`, dispatched with
`expectBoolean = true` (spec section 4.2, phase 2b). -/
def canActivateStep (cfg : Transition) (B : H → HookRun) :
    H → (St V H → St V H) → St V H → St V H :=
  stepHook cfg B Ev.evCanActivate true

/-- Modelled from the spec: `pipeline.deactivate`, dispatched with
`expectBoolean = false` (spec section 4.3, phase 3). -/
def deactivateStep (cfg : Transition) (B : V → HookRun) :
    V → (St V H → St V H) → St V H → St V H :=
  stepHook cfg B Ev.evDeactivate false

/-- The `activatePhase` callback of `start` (lines 118-137): update the
router's current route to `to` (the commit point), fire `reuse` for every
reused view, then either call
`pipeline.activate(daq[daq.length - 1], transition, reuseQueue.length, cb)`
(modelled from the spec: `activate` performs the activation and then calls
`cb` itself) or, with an empty remaining deactivate queue, `cb()` directly.
`cb` firing is the `evDone` event. -/
def activatePhase (cfg : Transition) (reuseQueue : Option (List V))
    (daq : List V) (s3 : St V H) : St V H :=
  let s4 := emit (Ev.evUpdateRoute cfg.toPath) { s3 with current := cfg.toPath }
  let s5 := (reuseQueue.getD []).foldl
    (fun acc v => emit (Ev.evReuse v) acc) s4
  match daq.getLast? with
  | some v =>
    emit Ev.evDone (emit (Ev.evActivate v ((reuseQueue.getD []).length)) s5)
  | none => emit Ev.evDone s5

/-- The `deactivatePhase` callback of `start` (line 118): run the
deactivate queue through `pipeline.deactivate`, then `activatePhase`. -/
def deactivatePhase (cfg : Transition) (Bd : V → HookRun)
    (reuseQueue : Option (List V)) (daq : List V) (s2 : St V H) : St V H :=
  runQueue (deactivateStep cfg Bd) (activatePhase cfg reuseQueue daq) daq s2

/-- The `canActivatePhase` callback of `start` (line 117): run the activate
queue through `pipeline.canActivate`, then `deactivatePhase`. -/
def canActivatePhase (cfg : Transition) (Bca : H → HookRun)
    (Bd : V → HookRun) (reuseQueue : Option (List V)) (daq : List V)
    (aq : List H) (s1 : St V H) : St V H :=
  runQueue (canActivateStep cfg Bca) (deactivatePhase cfg Bd reuseQueue daq)
    aq s1

/-- `RouteTransition.prototype.start` (lines 96-141): phase 1 trims the
queues by the reusable count; then `runQueue(daq, canDeactivate, ...)`
continues into `canActivatePhase`, `deactivatePhase` and `activatePhase`
(the source's named callbacks). -/
def Transition.start (cfg : Transition) (cr : V → Option H → Bool)
    (Bcd : V → HookRun) (Bca : H → HookRun) (Bd : V → HookRun)
    (daq0 : List V) (aq0 : List H) (s : St V H) : St V H :=
  let p := phase1 cr daq0 aq0
  runQueue (canDeactivateStep cfg Bcd)
    (canActivatePhase cfg Bca Bd p.1 p.2.1 p.2.2) p.2.1 s

/-! ## Concrete instances used by witnesses and counterexamples -/

/-- A concrete transition: `to.path = "/to"`, `from.path = "/from"`, errors
not suppressed, `mapParams` the identity. -/
def cfg0 : Transition :=
  { toPath := "/to", fromPath := some "/from", suppress := false,
    mapParams := id }

/-- A concrete fresh state. -/
def s0 : St Nat Nat := { aborted := false, current := "/start", trace := [] }

/-- A concrete advance continuation that records its invocation. -/
def cbE : Cb Nat Nat := fun p s => emit (Ev.evCb p) s

/-- A concrete `canReuse`: a view is reusable exactly for the handler with
its own label. -/
def crEx : Nat → Option Nat → Bool := fun v oh => oh == some v

/-- Hook behaviours for concrete pipeline runs: `canDeactivate` returns
`true`, `canActivate` returns `false`, `deactivate` returns a non-thenable. -/
def BcdC : Nat → HookRun := fun _ => ⟨[], HookRet.hBool true⟩

/-- `canActivate` behaviour returning `false` synchronously. -/
def BcaC : Nat → HookRun := fun _ => ⟨[], HookRet.hBool false⟩

/-- `deactivate` behaviour returning a plain value (waits on `next`;
never reached in the aborting run it is used in). -/
def BdC : Nat → HookRun := fun _ => ⟨[], HookRet.hOther⟩

/-! ## Facts about the reusability loop -/

theorem list_tail_getElem? (hs : List H) (j : Nat) : hs.tail[j]? = hs[j + 1]? := by
  cases hs <;> simp

theorem list_head?_eq_getElem? (hs : List H) : hs.head? = hs[0]? := by
  cases hs <;> simp

theorem reuseCount_le_length (cr : V → Option H → Bool) :
    ∀ (vs : List V) (hs : List H), reuseCount cr vs hs ≤ vs.length := by
  intro vs
  induction vs with
  | nil => intro hs; simp [reuseCount]
  | cons v vs ih =>
    intro hs
    simp only [reuseCount, List.length_cons]
    split
    · exact Nat.succ_le_succ (ih hs.tail)
    · exact Nat.zero_le _

theorem reuseCount_success (cr : V → Option H → Bool) :
    ∀ (vs : List V) (hs : List H) (j : Nat), j < reuseCount cr vs hs →
      ∃ v, vs[j]? = some v ∧ cr v hs[j]? = true := by
  intro vs
  induction vs with
  | nil => intro hs j hj; simp [reuseCount] at hj
  | cons v vs ih =>
    intro hs j hj
    simp only [reuseCount] at hj
    by_cases hc : cr v hs.head? = true
    · rw [if_pos hc] at hj
      cases j with
      | zero =>
        exact ⟨v, by simp, by rw [← list_head?_eq_getElem?]; exact hc⟩
      | succ j =>
        obtain ⟨w, hw1, hw2⟩ := ih hs.tail j (Nat.lt_of_succ_lt_succ hj)
        rw [list_tail_getElem?] at hw2
        exact ⟨w, by simpa using hw1, hw2⟩
    · rw [if_neg hc] at hj
      exact absurd hj (Nat.not_lt_zero j)

theorem reuseCount_stop (cr : V → Option H → Bool) :
    ∀ (vs : List V) (hs : List H), reuseCount cr vs hs < vs.length →
      ∃ v, vs[reuseCount cr vs hs]? = some v ∧
        cr v (hs[reuseCount cr vs hs]?) = false := by
  intro vs
  induction vs with
  | nil => intro hs h; simp [reuseCount] at h
  | cons v vs ih =>
    intro hs h
    simp only [reuseCount, List.length_cons] at h ⊢
    by_cases hc : cr v hs.head? = true
    · rw [if_pos hc] at h ⊢
      obtain ⟨w, hw1, hw2⟩ := ih hs.tail (by omega)
      rw [list_tail_getElem?] at hw2
      exact ⟨w, by simpa using hw1, hw2⟩
    · rw [if_neg hc]
      exact ⟨v, by simp, by rw [← list_head?_eq_getElem?]
                            exact Bool.eq_false_iff.mpr hc⟩

theorem reuseCount_ge_of_aligned (cr : V → Option H → Bool)
    (hcr : ∀ v h, cr v (some h) = true) :
    ∀ (vs : List V) (hs : List H), min vs.length hs.length ≤ reuseCount cr vs hs := by
  intro vs
  induction vs with
  | nil => intro hs; simp
  | cons v vs ih =>
    intro hs
    cases hs with
    | nil => simp
    | cons h hs =>
      have h1 := ih hs
      simp only [reuseCount, List.head?, List.tail, hcr v h, if_true,
        List.length_cons, Nat.succ_min_succ]
      exact Nat.succ_le_succ h1

theorem reuseCount_eq_length_of_true (cr : V → Option H → Bool)
    (hcr : ∀ v oh, cr v oh = true) :
    ∀ (vs : List V) (hs : List H), reuseCount cr vs hs = vs.length := by
  intro vs
  induction vs with
  | nil => intro hs; simp [reuseCount]
  | cons v vs ih =>
    intro hs
    simp [reuseCount, hcr, ih]

theorem reuseCalls_getElem? (cr : V → Option H → Bool) :
    ∀ (vs : List V) (hs : List H) (j : Nat), j ≤ reuseCount cr vs hs →
      (reuseCalls cr vs hs)[j]? = (vs[j]?).map (fun v => (v, hs[j]?)) := by
  intro vs
  induction vs with
  | nil =>
    intro hs j hj
    simp [reuseCount] at hj
    subst hj
    simp [reuseCalls]
  | cons v vs ih =>
    intro hs j hj
    simp only [reuseCount] at hj
    simp only [reuseCalls]
    by_cases hc : cr v hs.head? = true
    · rw [if_pos hc] at hj ⊢
      cases j with
      | zero => simp [list_head?_eq_getElem?]
      | succ j =>
        have := ih hs.tail j (Nat.le_of_succ_le_succ hj)
        simp only [List.getElem?_cons_succ, this, list_tail_getElem?]
    · rw [if_neg hc] at hj ⊢
      have hj0 : j = 0 := Nat.le_zero.mp hj
      subst hj0
      simp [list_head?_eq_getElem?]

theorem reuseCalls_head? (cr : V → Option H → Bool) (vs : List V) (hs : List H) :
    (reuseCalls cr vs hs).head? = vs.head?.map (fun v => (v, hs.head?)) := by
  cases vs with
  | nil => simp [reuseCalls]
  | cons v vs =>
    simp only [reuseCalls]
    split <;> simp

theorem phase1_reuse_length (cr : V → Option H → Bool) (daq0 : List V)
    (aq0 : List H) :
    ((phase1 cr daq0 aq0).1.getD []).length = reuseCount cr daq0.reverse aq0 := by
  by_cases h : 0 < reuseCount cr daq0.reverse aq0
  · simp only [phase1, gt_iff_lt, h, if_true, Option.getD_some,
      List.length_take]
    exact Nat.min_eq_left (reuseCount_le_length cr daq0.reverse aq0)
  · have h0 : reuseCount cr daq0.reverse aq0 = 0 := by omega
    simp [phase1, h0]

theorem reuseCount_le_of_none (cr : V → Option H → Bool)
    (hnone : ∀ v, cr v none = false) :
    ∀ (vs : List V) (hs : List H), reuseCount cr vs hs ≤ hs.length := by
  intro vs
  induction vs with
  | nil => intro hs; simp [reuseCount]
  | cons v vs ih =>
    intro hs
    cases hs with
    | nil => simp [reuseCount, hnone]
    | cons h hs =>
      simp only [reuseCount, List.head?, List.tail, List.length_cons]
      split
      · exact Nat.succ_le_succ (ih hs)
      · exact Nat.zero_le _

/-! ## Claim C1: the reusability phase of `start` -/

/-- C1 is false as stated: `this.deactivateQueue` is stored deepest-first
(transition.js lines 23-26), so `rdaq = daq.slice().reverse()` runs
root-to-leaf and the pairs are checked root-first. For old chain `[A,B,C]`
(deactivate queue `[C,B,A]`, encoded `[2,1,0]`) and new handlers
`[A,B,D]` (encoded `[0,1,3]`), the first `canReuse` call is the root pair
`(A, A) = (0, some 0)`, not the deepest pair `(C, D) = (2, some 3)`; and
with a predicate accepting everything, `reuseCount` on `rdaq = [0,1]` and
handlers `[5]` is `2`, not the `1` that stopping at the activate queue's
exhaustion would give. -/
theorem c1_counterexample :
    (reuseCalls crEx [0, 1, 2] [0, 1, 3]).head? = some (0, some 0) ∧
    (reuseCalls crEx [0, 1, 2] [0, 1, 3]).head? ≠ some (2, some 3) ∧
    reuseCount (fun (_ : Nat) (_ : Option Nat) => true) [0, 1] [5] = 2 ∧
    ¬ reuseCount (fun (_ : Nat) (_ : Option Nat) => true) [0, 1] [5] ≤ 1 := by
  decide

/-- C1 (amended): in `start`'s reusability phase `rdaq` is the deactivate
queue (stored deepest-first) reversed, i.e. running root-to-leaf;
`canReuse(rdaq[i], activateQueue[i], transition)` is tested for `i` from 0
upward, stopping at the first failure or when `rdaq` is exhausted (reads
past the activate queue's end yield the absent value); the resulting
`reuseQueue` equals `rdaq[0..i)` (the root-first reusable seed),
the remaining deactivate queue equals `rdaq[i..)` reversed back to
deepest-first order (their concatenation reassembles `rdaq`), and the
remaining activate queue equals `activateQueue[i..)`; in particular for old
chain `[A,B,C]` and new handlers `[A,B,D]` the root pair `(A, A)` is
checked first, and with `canReuse` accepting label-equal pairs the run
reuses `[A,B]`, leaving deactivate queue `[C]` and activate queue `[D]`. -/
theorem c1_reuse_phase (cr : V → Option H → Bool) (daq0 : List V)
    (aq0 : List H) :
    (reuseCount cr daq0.reverse aq0 ≤ daq0.length) ∧
    (∀ j, j < reuseCount cr daq0.reverse aq0 →
      ∃ v, daq0.reverse[j]? = some v ∧ cr v aq0[j]? = true) ∧
    (reuseCount cr daq0.reverse aq0 < daq0.length →
      ∃ v, daq0.reverse[reuseCount cr daq0.reverse aq0]? = some v ∧
        cr v (aq0[reuseCount cr daq0.reverse aq0]?) = false) ∧
    ((phase1 cr daq0 aq0).1.getD [] ++
      ((phase1 cr daq0 aq0).2.1).reverse = daq0.reverse) ∧
    ((phase1 cr daq0 aq0).2.2 = aq0.drop (reuseCount cr daq0.reverse aq0)) ∧
    ((reuseCalls cr daq0.reverse aq0).head? =
      daq0.reverse.head?.map (fun v => (v, aq0.head?))) ∧
    (reuseCalls crEx [0, 1, 2] [0, 1, 3] =
      [(0, some 0), (1, some 1), (2, some 3)] ∧
      phase1 crEx [2, 1, 0] [0, 1, 3] = (some [0, 1], [2], [3])) := by
  refine ⟨?_, ?_, ?_, ?_, ?_, reuseCalls_head? cr daq0.reverse aq0, by decide⟩
  · have h := reuseCount_le_length cr daq0.reverse aq0
    simpa using h
  · exact fun j hj => reuseCount_success cr daq0.reverse aq0 j hj
  · intro h
    exact reuseCount_stop cr daq0.reverse aq0 (by simpa using h)
  · by_cases h : 0 < reuseCount cr daq0.reverse aq0
    · simp only [phase1, gt_iff_lt, h, if_true, Option.getD_some,
        List.reverse_reverse]
      exact List.take_append_drop _ _
    · have h0 : reuseCount cr daq0.reverse aq0 = 0 := by omega
      simp [phase1, h0]
  · by_cases h : 0 < reuseCount cr daq0.reverse aq0
    · simp [phase1, gt_iff_lt, h, if_true]
    · have h0 : reuseCount cr daq0.reverse aq0 = 0 := by omega
      simp [phase1, h0]

/-! ## Claim C4: bound on the reuse queue's length -/

/-- C4 is false as stated: with deactivate queue `[1, 0]` (two views),
activate queue `[5]` (one handler) and a `canReuse` that accepts every
pair — including pairs whose handler argument is absent — the loop runs to
`rdaq`'s end, so `reuseQueue` has length 2, exceeding
`min(|deactivateQueue|, |activateQueue|) = 1`: the loop does not stop when
the activate queue is exhausted. -/
theorem c4_counterexample :
    ¬ ((phase1 (fun (_ : Nat) (_ : Option Nat) => true) [1, 0] [5]).1.getD
        []).length ≤ min (List.length [1, 0]) (List.length [(5 : Nat)]) := by
  decide

/-- C4 (amended): `reuseQueue`'s length never exceeds the deactivate
queue's length (the loop stops at the first `canReuse` failure or when
`rdaq` — the reversed deactivate queue — is exhausted, but not when the
activate queue is exhausted); the claimed
`min(|deactivateQueue|, |activateQueue|)` bound holds whenever the
externally supplied `canReuse` rejects every pair with an absent handler
argument. -/
theorem c4_reuse_bound (cr : V → Option H → Bool) (daq0 : List V)
    (aq0 : List H) (hnone : ∀ v, cr v none = false) :
    (∀ cr2 : V → Option H → Bool,
      ((phase1 cr2 daq0 aq0).1.getD []).length ≤ daq0.length) ∧
    ((phase1 cr daq0 aq0).1.getD []).length ≤ min daq0.length aq0.length := by
  constructor
  · intro cr2
    rw [phase1_reuse_length]
    have h := reuseCount_le_length cr2 daq0.reverse aq0
    simpa using h
  · rw [phase1_reuse_length]
    refine le_min ?_ ?_
    · have h := reuseCount_le_length cr daq0.reverse aq0
      simpa using h
    · exact reuseCount_le_of_none cr hnone daq0.reverse aq0

/-- Witness for C4's amended bound at a concrete input: `crEx` rejects
absent handlers, so on queues `[2,1,0]` / `[0,1,3]` the reuse queue's
length is within `min 3 3`. -/
theorem c4_witness :
    ((phase1 crEx [2, 1, 0] [0, 1, 3]).1.getD []).length ≤
      min (List.length [2, 1, 0]) (List.length [(0 : Nat), 1, 3]) :=
  (c4_reuse_bound crEx [2, 1, 0] [0, 1, 3] (fun _ => rfl)).2

/-! ## Claim C10: the loop reads past the activate queue's end -/

/-- C10 (confirmed): when the old view chain is strictly longer than the
new handler chain and `canReuse` accepts every aligned (in-bounds) pair,
the loop reaches index `|activateQueue|` and calls `canReuse` with the
absent value `none` for the handler argument — the JavaScript
`aq[i] === undefined` read — and when `canReuse` accepts absent handlers
too, every position from `|activateQueue|` to `|rdaq| - 1` is called with
`none`. -/
theorem c10_oob_read (cr : V → Option H → Bool) (daq0 : List V)
    (aq0 : List H) (hcr : ∀ v h, cr v (some h) = true)
    (hlen : aq0.length < daq0.length) :
    (∃ v, daq0.reverse[aq0.length]? = some v ∧
      (v, (none : Option H)) ∈ reuseCalls cr daq0.reverse aq0) ∧
    (∀ cr2 : V → Option H → Bool, (∀ v oh, cr2 v oh = true) →
      ∀ j, aq0.length ≤ j → j < daq0.length →
        (reuseCalls cr2 daq0.reverse aq0)[j]? =
          (daq0.reverse[j]?).map (fun v => (v, (none : Option H)))) := by
  constructor
  · have hcount : aq0.length ≤ reuseCount cr daq0.reverse aq0 := by
      have h := reuseCount_ge_of_aligned cr hcr daq0.reverse aq0
      have hm : min daq0.reverse.length aq0.length = aq0.length := by
        simp only [List.length_reverse]
        omega
      omega
    have hsome : ∃ v, daq0.reverse[aq0.length]? = some v := by
      have : aq0.length < daq0.reverse.length := by simpa using hlen
      exact ⟨daq0.reverse[aq0.length], List.getElem?_eq_getElem this⟩
    obtain ⟨v, hv⟩ := hsome
    refine ⟨v, hv, ?_⟩
    have hcall := reuseCalls_getElem? cr daq0.reverse aq0 aq0.length hcount
    rw [hv] at hcall
    have hae : aq0[aq0.length]? = none := by simp
    rw [hae] at hcall
    exact List.getElem?_mem hcall
  · intro cr2 hcr2 j hj1 hj2
    have hcount : reuseCount cr2 daq0.reverse aq0 = daq0.length := by
      have h := reuseCount_eq_length_of_true cr2 hcr2 daq0.reverse aq0
      simpa using h
    have hcall := reuseCalls_getElem? cr2 daq0.reverse aq0 j
      (by omega)
    have hae : aq0[j]? = none := List.getElem?_eq_none hj1
    rw [hae] at hcall
    exact hcall

/-- Witness for C10 at a concrete input: old chain of two views, no new
handlers. -/
theorem c10_witness :
    (∃ v, ([1, 0] : List Nat).reverse[(List.length ([] : List Nat))]? = some v ∧
      (v, (none : Option Nat)) ∈
        reuseCalls (fun _ _ => true) ([1, 0] : List Nat).reverse []) ∧
    (∀ cr2 : Nat → Option Nat → Bool, (∀ v oh, cr2 v oh = true) →
      ∀ j, (List.length ([] : List Nat)) ≤ j → j < List.length [1, 0] →
        (reuseCalls cr2 ([1, 0] : List Nat).reverse [])[j]? =
          (([1, 0] : List Nat).reverse[j]?).map
            (fun v => (v, (none : Option Nat)))) :=
  c10_oob_read (fun _ _ => true) [1, 0] [] (fun _ _ => rfl) (by decide)

/-! ## Stickiness of `aborted` -/

theorem abort_aborted (cfg : Transition) (s : St V H) :
    (cfg.abort s).aborted = true := by
  unfold Transition.abort
  split
  · assumption
  · rfl

theorem redirect_aborted (cfg : Transition) (p : String) (s : St V H) :
    (cfg.redirect p s).aborted = true := by
  unfold Transition.redirect
  split
  · assumption
  · rfl

theorem applyCleanup_aborted (cl : Cleanup V H) (s : St V H) :
    (applyCleanup cl s).aborted = s.aborted := by
  cases cl <;> rfl

theorem abortFn_aborted (cfg : Transition) (cl : Cleanup V H) (s : St V H) :
    (abortFn cfg cl s).aborted = true :=
  abort_aborted cfg (applyCleanup cl s)

@[simp] theorem emit_aborted (e : Ev V H) (s : St V H) :
    (emit e s).aborted = s.aborted := rfl

@[simp] theorem emit_current (e : Ev V H) (s : St V H) :
    (emit e s).current = s.current := rfl

@[simp] theorem emit_trace (e : Ev V H) (s : St V H) :
    (emit e s).trace = s.trace ++ [e] := rfl

@[simp] theorem appendTrace_aborted (es : List (Ev V H)) (s : St V H) :
    (appendTrace es s).aborted = s.aborted := rfl

@[simp] theorem appendTrace_trace (es : List (Ev V H)) (s : St V H) :
    (appendTrace es s).trace = s.trace ++ es := rfl

theorem abort_of_aborted (cfg : Transition) (s : St V H)
    (h : s.aborted = true) : cfg.abort s = s := by
  unfold Transition.abort
  rw [if_pos h]

theorem redirect_of_aborted (cfg : Transition) (p : String) (s : St V H)
    (h : s.aborted = true) : cfg.redirect p s = s := by
  unfold Transition.redirect
  rw [if_pos h]

theorem nextFn_aborted (cb : Option (Cb V H)) (p : Option JSVal) (nc : Bool)
    (s : St V H) (h : s.aborted = true) :
    ((nextFn cb p nc s).2).aborted = true := by
  unfold nextFn
  split
  · simpa using h
  · cases cb with
    | none => exact h
    | some k => simp [h]

theorem onErrorFn_aborted (cfg : Transition) (cb : Option (Cb V H))
    (cl : Cleanup V H) (sync : Bool) (err : JSVal) (nc : Bool) (s : St V H)
    (h : s.aborted = true) :
    ((onErrorFn cfg cb cl sync err nc s).2).aborted = true := by
  have hb : ((match cl with
      | some _ => nextFn cb none nc s
      | none => (nc, abortFn cfg cl s)).2).aborted = true := by
    cases cl with
    | some es => exact nextFn_aborted cb none nc s h
    | none => exact abortFn_aborted cfg none s
  unfold onErrorFn
  by_cases hc : (truthy err && !cfg.suppress) = true
  · rw [if_pos hc]
    simpa using hb
  · rw [if_neg hc]
    exact hb

theorem runActs_aborted (cfg : Transition) (cb : Option (Cb V H))
    (cl : Cleanup V H) :
    ∀ (acts : List HookAct) (nc : Bool) (s : St V H), s.aborted = true →
      ((runActs cfg cb cl acts nc s).2).aborted = true := by
  intro acts
  induction acts with
  | nil => intro nc s h; exact h
  | cons a rest ih =>
    intro nc s h
    cases a with
    | hNext p => exact ih _ _ (nextFn_aborted cb p nc s h)
    | hAbort => exact ih _ _ (abortFn_aborted cfg cl s)
    | hRedirect p => exact ih _ _ (redirect_aborted cfg p s)

theorem callHook_aborted (cfg : Transition) (run : HookRun)
    (cb : Option (Cb V H)) (eb : Bool) (cl : Cleanup V H) (s : St V H)
    (h : s.aborted = true) :
    (Transition.callHook cfg run cb eb cl s).aborted = true := by
  unfold Transition.callHook
  have hr := runActs_aborted cfg cb cl run.acts false s h
  cases hret : run.ret with
  | hThrow e => exact onErrorFn_aborted cfg cb cl true e _ _ hr
  | hBool b =>
    by_cases hb : eb = true
    · rw [hb]
      simp only [if_true]
      cases b
      · simp only [Bool.false_eq_true, if_false]
        exact abortFn_aborted cfg cl _
      · simp only [if_true]
        exact nextFn_aborted cb none _ _ hr
    · simp only [Bool.not_eq_true] at hb
      rw [hb]
      simp only [Bool.false_eq_true, if_false]
      exact hr
  | hPromise pb =>
    cases pb with
    | resolves v =>
      by_cases hb : eb = true
      · rw [hb]
        simp only [if_true]
        by_cases hv : truthy v = true
        · rw [hv]
          simp only [if_true]
          exact nextFn_aborted cb none _ _ hr
        · simp only [Bool.not_eq_true] at hv
          rw [hv]
          simp only [Bool.false_eq_true, if_false]
          exact abortFn_aborted cfg cl _
      · simp only [Bool.not_eq_true] at hb
        rw [hb]
        simp only [Bool.false_eq_true, if_false]
        exact nextFn_aborted cb (some v) _ _ hr
    | rejects e => exact onErrorFn_aborted cfg cb cl false e _ _ hr
    | pending => exact hr
  | hOther => exact hr

/-! ## Claim C5: the `aborted` flag is sticky -/

/-- C5 (confirmed): once `aborted` is `true`, `abort()` and
`redirect(path)` are exact no-ops (no second `router.replace`, no state
change), a hook's `next()` marks `nextCalled` but returns without invoking
the pending continuation (so no new queue step begins), and no `callHook`
invocation — whatever the hook does — can reset `aborted`; moreover
`abort` always leaves `aborted` set and is idempotent, and a `redirect`
after an `abort` is a no-op (the first caller wins), so the flag moves
from `false` to `true` at most once. -/
theorem c5_sticky (cfg : Transition) (p : String) (k : Cb V H)
    (payload : Option JSVal) (run : HookRun) (cb : Option (Cb V H))
    (eb : Bool) (cl : Cleanup V H) (s : St V H) (h : s.aborted = true) :
    cfg.abort s = s ∧
    cfg.redirect p s = s ∧
    nextFn (some k) payload false s = (true, s) ∧
    (Transition.callHook cfg run cb eb cl s).aborted = true ∧
    (∀ s2 : St V H, (cfg.abort s2).aborted = true ∧
      cfg.abort (cfg.abort s2) = cfg.abort s2 ∧
      cfg.redirect p (cfg.abort s2) = cfg.abort s2) := by
  refine ⟨abort_of_aborted cfg s h, redirect_of_aborted cfg p s h, ?_,
    callHook_aborted cfg run cb eb cl s h, ?_⟩
  · unfold nextFn
    rw [if_neg (by simp)]
    rw [h]
    rfl
  · intro s2
    exact ⟨abort_aborted cfg s2,
      abort_of_aborted cfg _ (abort_aborted cfg s2),
      redirect_of_aborted cfg p _ (abort_aborted cfg s2)⟩

/-- Witness for C5 at a concrete already-aborted state. -/
theorem c5_witness :
    cfg0.abort ⟨true, "/start", []⟩ = (⟨true, "/start", []⟩ : St Nat Nat) :=
  (c5_sticky cfg0 "/x" cbE none ⟨[], HookRet.hOther⟩ none false none
    ⟨true, "/start", []⟩ rfl).1

/-! ## Claim C6: `next` has effect only on its first call -/

theorem nextFn_fst (cb : Option (Cb V H)) (p : Option JSVal) (nc : Bool)
    (s : St V H) : (nextFn cb p nc s).1 = true := by
  unfold nextFn
  split
  · rfl
  · cases cb with
    | none => rfl
    | some k2 => by_cases h2 : s.aborted = true <;> simp [h2]

/-- C6 (confirmed): within one `callHook` invocation the exposed `next`
marks `nextCalled` on every call; a call with `nextCalled` already set
changes nothing but appends the "called only once" warning (the
continuation is not invoked and nothing is thrown — `nextFn` is a total
function returning the state unchanged except for the warning); hence
running a hook body that calls `next` twice equals running one that calls
it once, plus that warning. -/
theorem c6_next_once (cfg : Transition) (cb : Option (Cb V H))
    (cl : Cleanup V H) (p q : Option JSVal) (nc : Bool) (s s2 : St V H) :
    ((nextFn cb p nc s).1 = true) ∧
    (nextFn cb q true s2 = (true, emit (Ev.evWarn nextOnceMsg) s2)) ∧
    (runActs cfg cb cl [HookAct.hNext p, HookAct.hNext q] false s =
      (true, emit (Ev.evWarn nextOnceMsg) (nextFn cb p false s).2)) := by
  refine ⟨nextFn_fst cb p nc s, rfl, ?_⟩
  have h1 := nextFn_fst cb p false s
  simp only [runActs, h1]
  rfl

/-! ## Claim C9: falsy errors run the error path but are never re-raised -/

/-- C9 (confirmed): when a hook throws, or its returned deferred rejects
with, a falsy value (`null`, `0`, `""`, `undefined`, `false`), the error
path still runs — with a cleanup supplied (`onAfterCommit`, post-commit)
the protocol advances by invoking the continuation, without one it aborts
the transition — and the value is never re-raised, whatever the router's
suppression flag: `if (err && !this.router._suppress)` short-circuits on a
falsy `err`. -/
theorem c9_falsy_not_reraised (cfg : Transition) (k : Cb V H) (e : JSVal)
    (ces : List (Ev V H)) (eb : Bool) (s : St V H)
    (h1 : s.aborted = false) (h2 : truthy e = false) :
    (Transition.callHook cfg ⟨[], HookRet.hThrow e⟩ (some k) eb (some ces) s =
      k none s) ∧
    (Transition.callHook cfg ⟨[], HookRet.hThrow e⟩ (some k) eb none s =
      cfg.abort s) ∧
    (Transition.callHook cfg ⟨[], HookRet.hPromise (PromiseB.rejects e)⟩
      (some k) eb (some ces) s = k none s) ∧
    (Transition.callHook cfg ⟨[], HookRet.hPromise (PromiseB.rejects e)⟩
      (some k) eb none s = cfg.abort s) := by
  refine ⟨?_, ?_, ?_, ?_⟩ <;>
    simp [Transition.callHook, runActs, onErrorFn, nextFn, abortFn,
      applyCleanup, h1, h2]

/-- Witness for C9: a hook throwing `null` post-commit still advances and
nothing is re-raised. -/
theorem c9_witness :
    Transition.callHook cfg0 ⟨[], HookRet.hThrow JSVal.vNull⟩ (some cbE)
      false (some []) s0 = cbE none s0 :=
  (c9_falsy_not_reraised cfg0 cbE JSVal.vNull [] false s0 rfl rfl).1

/-! ## Claim C2: post-commit hook errors -/

/-- C2 is false as stated: with an `onAfterCommit` cleanup supplied and the
hook throwing, `onError` runs `cleanup ? next() : abort()` — with a cleanup
present it calls `next()` and never runs the cleanup (the cleanup runs only
inside the local `abort`, which this branch skips). Concretely the trace
shows the continuation invoked and the error re-raised, but no cleanup
event. -/
theorem c2_counterexample :
    (Transition.callHook cfg0 ⟨[], HookRet.hThrow (JSVal.vStr "boom")⟩
      (some cbE) false (some [Ev.evCleanup]) s0).trace =
      [Ev.evCb none, Ev.evWarn uncaughtMsg,
        Ev.evRaise (JSVal.vError "boom") true] ∧
    Ev.evCleanup ∉ (Transition.callHook cfg0
      ⟨[], HookRet.hThrow (JSVal.vStr "boom")⟩
      (some cbE) false (some [Ev.evCleanup]) s0).trace := by
  decide

/-- C2 (amended): when `callHook` is given an `onAfterCommit` cleanup
(post-commit phase) and the hook throws or its returned deferred rejects,
the protocol advances by calling `next()` — without running the cleanup —
so the already-committed transition still finishes; the error is then
re-raised (normalized) when truthy and not suppressed. -/
theorem c2_advance_without_cleanup (cfg : Transition) (k : Cb V H)
    (e : JSVal) (ces : List (Ev V H)) (eb : Bool) (s : St V H)
    (h1 : s.aborted = false) :
    (Transition.callHook cfg ⟨[], HookRet.hThrow e⟩ (some k) eb (some ces) s =
      if (truthy e && !cfg.suppress) = true then
        emit (Ev.evRaise (normalizeErr e) true)
          (emit (Ev.evWarn uncaughtMsg) (k none s))
      else k none s) ∧
    (Transition.callHook cfg ⟨[], HookRet.hPromise (PromiseB.rejects e)⟩
      (some k) eb (some ces) s =
      if (truthy e && !cfg.suppress) = true then
        emit (Ev.evRaise (normalizeErr e) false)
          (emit (Ev.evWarn uncaughtMsg) (k none s))
      else k none s) := by
  constructor <;>
  · by_cases hc : (truthy e && !cfg.suppress) = true <;>
      simp [Transition.callHook, runActs, onErrorFn, nextFn, h1, hc]

/-- Witness for C2's amended statement at a concrete input. -/
theorem c2_witness :
    Transition.callHook cfg0 ⟨[], HookRet.hThrow (JSVal.vStr "x")⟩
      (some cbE) false (some [Ev.evCleanup]) s0 =
      if (truthy (JSVal.vStr "x") && !cfg0.suppress) = true then
        emit (Ev.evRaise (normalizeErr (JSVal.vStr "x")) true)
          (emit (Ev.evWarn uncaughtMsg) (cbE none s0))
      else cbE none s0 :=
  (c2_advance_without_cleanup cfg0 cbE (JSVal.vStr "x") [Ev.evCleanup]
    false s0 rfl).1

/-! ## Claim C3: how hook errors are re-raised -/

/-- C3 is false as stated: a post-commit hook that throws synchronously has
its error re-raised synchronously at the `hook.call` site (the `throw` in
`onError` runs inside `callHook`'s own catch branch, not on a later tick),
with the router not suppressing errors. -/
theorem c3_counterexample :
    Ev.evRaise (JSVal.vError "boom") true ∈
      (Transition.callHook cfg0 ⟨[], HookRet.hThrow (JSVal.vStr "boom")⟩
        (some cbE) false (some []) s0).trace ∧
    cfg0.suppress = false := by
  decide

/-- C3 (amended): a truthy post-commit hook error is re-raised unless the
router has globally suppressed error surfacing — synchronously at the
throw site when the hook itself throws (the rethrow runs in `callHook`'s
catch branch), and asynchronously (inside the promise rejection reaction)
when the hook's returned deferred rejects; every re-raised error is first
normalized to an `Error` value, and with suppression on nothing is
re-raised. -/
theorem c3_raise_semantics (cfg : Transition) (k : Cb V H) (e : JSVal)
    (ces : List (Ev V H)) (eb : Bool) (s : St V H) (h1 : s.aborted = false) :
    (truthy e = true → cfg.suppress = false →
      Transition.callHook cfg ⟨[], HookRet.hThrow e⟩ (some k) eb (some ces) s =
        emit (Ev.evRaise (normalizeErr e) true)
          (emit (Ev.evWarn uncaughtMsg) (k none s))) ∧
    (truthy e = true → cfg.suppress = false →
      Transition.callHook cfg ⟨[], HookRet.hPromise (PromiseB.rejects e)⟩
        (some k) eb (some ces) s =
        emit (Ev.evRaise (normalizeErr e) false)
          (emit (Ev.evWarn uncaughtMsg) (k none s))) ∧
    (∀ e2 : JSVal, isError (normalizeErr e2) = true) ∧
    (cfg.suppress = true →
      Transition.callHook cfg ⟨[], HookRet.hThrow e⟩ (some k) eb (some ces) s =
        k none s) := by
  refine ⟨?_, ?_, ?_, ?_⟩
  · intro ht hs
    simp [Transition.callHook, runActs, onErrorFn, nextFn, h1, ht, hs]
  · intro ht hs
    simp [Transition.callHook, runActs, onErrorFn, nextFn, h1, ht, hs]
  · intro e2
    cases e2 <;> rfl
  · intro hs
    simp [Transition.callHook, runActs, onErrorFn, nextFn, h1, hs]

/-- Witness for C3's amended statement: a synchronous throw of a non-Error
value is re-raised synchronously, normalized. -/
theorem c3_witness :
    Transition.callHook cfg0 ⟨[], HookRet.hThrow (JSVal.vNum 7)⟩ (some cbE)
      false (some []) s0 =
      emit (Ev.evRaise (normalizeErr (JSVal.vNum 7)) true)
        (emit (Ev.evWarn uncaughtMsg) (cbE none s0)) :=
  (c3_raise_semantics cfg0 cbE (JSVal.vNum 7) [] false s0 rfl).1 rfl rfl

/-! ## Claim C8: boolean returns under `expectBoolean` -/

/-- C8 (confirmed): with `expectBoolean` set and the hook synchronously
returning a boolean, `true` advances exactly as `next()` with no payload
(the continuation is applied to the `none` payload, with no deferred
involved) and `false` aborts at once (cleanup, then `transition.abort`);
consequently, in the concrete pipeline run where `canActivate` returns
`false`, the transition aborts after `canDeactivate 2` and `canActivate 3`
and no `deactivate`, commit-point update, `reuse`, `activate` or `cb()`
event ever occurs (pipeline step wrappers modelled from the spec). -/
theorem c8_boolean_shortcircuit (cfg : Transition) (k : Cb V H)
    (cl : Cleanup V H) (s : St V H) (h1 : s.aborted = false) :
    (Transition.callHook cfg ⟨[], HookRet.hBool true⟩ (some k) true cl s =
      k none s) ∧
    (∀ cl2 : Cleanup V H,
      Transition.callHook cfg ⟨[], HookRet.hBool false⟩ (some k) true cl2 s =
        cfg.abort (applyCleanup cl2 s)) ∧
    (Transition.start cfg0 crEx BcdC BcaC BdC [2, 1] [1, 3] s0 =
      ⟨true, "/start", [Ev.evCanDeactivate 2, Ev.evCanActivate 3,
        Ev.evReplace "/from"]⟩) := by
  refine ⟨?_, ?_, by decide⟩
  · simp [Transition.callHook, runActs, nextFn, h1]
  · intro cl2
    simp [Transition.callHook, runActs, abortFn]

/-- Witness for C8 at a concrete input: a `true` return advances the
continuation synchronously. -/
theorem c8_witness :
    Transition.callHook cfg0 ⟨[], HookRet.hBool true⟩ (some cbE) true none
      s0 = cbE none s0 :=
  (c8_boolean_shortcircuit cfg0 cbE none s0 rfl).1

/-! ## Pipeline-event projection for the ordering claims -/

/-- Pipeline events: the hook dispatches, the commit-point update, the
`reuse` / `activate` notifications and the final `cb()`. Warnings,
re-navigations, rethrown errors, cleanups and continuation payloads are
protocol noise, not pipeline steps. -/
def isPipe : Ev V H → Bool
  | Ev.evCanDeactivate _ => true
  | Ev.evCanActivate _ => true
  | Ev.evDeactivate _ => true
  | Ev.evUpdateRoute _ => true
  | Ev.evReuse _ => true
  | Ev.evActivate _ _ => true
  | Ev.evDone => true
  | _ => false

/-- The pipeline events of a state's trace, in order. -/
def pipeEvents (s : St V H) : List (Ev V H) :=
  s.trace.filter isPipe

theorem pipeEvents_emit_pos (e : Ev V H) (s : St V H) (he : isPipe e = true) :
    pipeEvents (emit e s) = pipeEvents s ++ [e] := by
  unfold pipeEvents
  simp [List.filter_append, List.filter, he]

theorem pipeEvents_emit_neg (e : Ev V H) (s : St V H) (he : isPipe e = false) :
    pipeEvents (emit e s) = pipeEvents s := by
  unfold pipeEvents
  simp [List.filter_append, List.filter, he]

theorem pipeEvents_abort (cfg : Transition) (s : St V H) :
    pipeEvents (cfg.abort s) = pipeEvents s := by
  unfold Transition.abort
  split
  · rfl
  · unfold pipeEvents
    simp [List.filter_append, List.filter, isPipe]

theorem pipeEvents_redirect (cfg : Transition) (p : String) (s : St V H) :
    pipeEvents (cfg.redirect p s) = pipeEvents s := by
  unfold Transition.redirect
  split
  · rfl
  · unfold pipeEvents
    simp [List.filter_append, List.filter, isPipe]

theorem pipeEvents_abortFn_none (cfg : Transition) (s : St V H) :
    pipeEvents (abortFn cfg none s) = pipeEvents s :=
  pipeEvents_abort cfg s

theorem pipeEvents_warn (m : String) (s : St V H) :
    pipeEvents (emit (Ev.evWarn m) s) = pipeEvents s :=
  pipeEvents_emit_neg _ s rfl

theorem pipeEvents_onErrorFn_none (cfg : Transition) (cb : Option (Cb V H))
    (sync : Bool) (err : JSVal) (nc : Bool) (s : St V H) :
    pipeEvents ((onErrorFn cfg cb none sync err nc s).2) = pipeEvents s := by
  unfold onErrorFn
  by_cases hc : (truthy err && !cfg.suppress) = true
  · rw [if_pos hc]
    calc pipeEvents (emit (Ev.evRaise (normalizeErr err) sync)
          (emit (Ev.evWarn uncaughtMsg) (abortFn cfg none s))) =
        pipeEvents (emit (Ev.evWarn uncaughtMsg) (abortFn cfg none s)) :=
          pipeEvents_emit_neg _ _ rfl
      _ = pipeEvents (abortFn cfg none s) := pipeEvents_emit_neg _ _ rfl
      _ = pipeEvents s := pipeEvents_abortFn_none cfg s
  · rw [if_neg hc]
    exact pipeEvents_abortFn_none cfg s

theorem runActs_true_run (cfg : Transition) (k : St V H → St V H) :
    ∀ (acts : List HookAct) (s : St V H),
      (runActs cfg (some (fun _ s2 => k s2)) none acts true s).1 = true ∧
      pipeEvents (runActs cfg (some (fun _ s2 => k s2)) none acts true s).2 =
        pipeEvents s := by
  intro acts
  induction acts with
  | nil => intro s; exact ⟨rfl, rfl⟩
  | cons a rest ih =>
    intro s
    cases a with
    | hNext p =>
      have h1 : nextFn (some (fun _ s2 => k s2)) p true s =
          (true, emit (Ev.evWarn nextOnceMsg) s) := rfl
      simp only [runActs, h1]
      obtain ⟨ha, hb⟩ := ih (emit (Ev.evWarn nextOnceMsg) s)
      exact ⟨ha, hb.trans (pipeEvents_warn _ s)⟩
    | hAbort =>
      simp only [runActs]
      obtain ⟨ha, hb⟩ := ih (abortFn cfg none s)
      exact ⟨ha, hb.trans (pipeEvents_abortFn_none cfg s)⟩
    | hRedirect p =>
      simp only [runActs]
      obtain ⟨ha, hb⟩ := ih (cfg.redirect p s)
      exact ⟨ha, hb.trans (pipeEvents_redirect cfg p s)⟩

theorem runActs_pfilter (cfg : Transition) (k : St V H → St V H) :
    ∀ (acts : List HookAct) (s : St V H),
      (pipeEvents (runActs cfg (some (fun _ s2 => k s2)) none acts false s).2 =
        pipeEvents s) ∨
      ((runActs cfg (some (fun _ s2 => k s2)) none acts false s).1 = true ∧
        ∃ s2, pipeEvents s2 = pipeEvents s ∧
          pipeEvents
            (runActs cfg (some (fun _ s2 => k s2)) none acts false s).2 =
            pipeEvents (k s2)) := by
  intro acts
  induction acts with
  | nil => intro s; exact Or.inl rfl
  | cons a rest ih =>
    intro s
    cases a with
    | hNext p =>
      by_cases hab : s.aborted = true
      · have h1 : nextFn (some (fun _ s2 => k s2)) p false s = (true, s) := by
          unfold nextFn
          rw [if_neg (by simp)]
          simp [hab]
        simp only [runActs, h1]
        obtain ⟨ha, hb⟩ := runActs_true_run cfg k rest s
        exact Or.inl hb
      · have h1 : nextFn (some (fun _ s2 => k s2)) p false s = (true, k s) := by
          unfold nextFn
          rw [if_neg (by simp)]
          simp [hab]
        simp only [runActs, h1]
        obtain ⟨ha, hb⟩ := runActs_true_run cfg k rest (k s)
        exact Or.inr ⟨ha, s, rfl, hb⟩
    | hAbort =>
      simp only [runActs]
      rcases ih (abortFn cfg none s) with hL | ⟨ha, s2, h2, h3⟩
      · exact Or.inl (hL.trans (pipeEvents_abortFn_none cfg s))
      · exact Or.inr ⟨ha, s2, h2.trans (pipeEvents_abortFn_none cfg s), h3⟩
    | hRedirect p =>
      simp only [runActs]
      rcases ih (cfg.redirect p s) with hL | ⟨ha, s2, h2, h3⟩
      · exact Or.inl (hL.trans (pipeEvents_redirect cfg p s))
      · exact Or.inr ⟨ha, s2, h2.trans (pipeEvents_redirect cfg p s), h3⟩

theorem nextFn_snd_cases (k : St V H → St V H) (p : Option JSVal) (nc : Bool)
    (s : St V H) :
    pipeEvents (nextFn (some (fun _ s2 => k s2)) p nc s).2 = pipeEvents s ∨
    (nextFn (some (fun _ s2 => k s2)) p nc s).2 = k s := by
  unfold nextFn
  by_cases h : nc = true
  · rw [if_pos h]
    exact Or.inl (pipeEvents_warn _ s)
  · rw [if_neg h]
    by_cases hab : s.aborted = true
    · exact Or.inl (by simp [hab])
    · exact Or.inr (by simp [hab])

theorem callHook_pfilter (cfg : Transition) (run : HookRun)
    (k : St V H → St V H) (eb : Bool) (s : St V H) :
    (pipeEvents (cfg.callHook run (some (fun _ s2 => k s2)) eb none s) =
      pipeEvents s) ∨
    (∃ s2, pipeEvents s2 = pipeEvents s ∧
      pipeEvents (cfg.callHook run (some (fun _ s2 => k s2)) eb none s) =
        pipeEvents (k s2)) := by
  obtain ⟨acts, ret⟩ := run
  have hact := runActs_pfilter cfg k acts s
  -- shorthand for the state after the hook body ran
  generalize hR : runActs cfg (some (fun _ s2 => k s2)) none acts false s = R
    at hact
  -- in the continuation-used case every later step only appends noise
  have hnoise : ∀ X : St V H,
      (pipeEvents R.2 = pipeEvents s →
        pipeEvents X = pipeEvents R.2 → pipeEvents X = pipeEvents s) :=
    fun X h1 h2 => h2.trans h1
  cases ret with
  | hThrow e =>
    have he : cfg.callHook ⟨acts, HookRet.hThrow e⟩
        (some (fun _ s2 => k s2)) eb none s =
        (onErrorFn cfg (some (fun _ s2 => k s2)) none true e R.1 R.2).2 := by
      unfold Transition.callHook
      rw [hR]
    rw [he]
    rcases hact with hL | ⟨ha, s2, h2, h3⟩
    · exact Or.inl ((pipeEvents_onErrorFn_none cfg _ true e R.1 R.2).trans hL)
    · exact Or.inr ⟨s2, h2,
        (pipeEvents_onErrorFn_none cfg _ true e R.1 R.2).trans h3⟩
  | hBool b =>
    have he : cfg.callHook ⟨acts, HookRet.hBool b⟩
        (some (fun _ s2 => k s2)) eb none s =
        (if eb then
          (if b then (nextFn (some (fun _ s2 => k s2)) none R.1 R.2).2
           else abortFn cfg none R.2)
         else R.2) := by
      unfold Transition.callHook
      rw [hR]
    rw [he]
    by_cases heb : eb = true
    · rw [if_pos heb]
      cases b with
      | true =>
        rw [if_pos rfl]
        rcases hact with hL | ⟨ha, s2, h2, h3⟩
        · rcases nextFn_snd_cases k none R.1 R.2 with hn | hn
          · exact Or.inl (hn.trans hL)
          · exact Or.inr ⟨R.2, hL, by rw [hn]⟩
        · rw [ha]
          have hw : (nextFn (some (fun _ s2 => k s2)) none true R.2).2 =
              emit (Ev.evWarn nextOnceMsg) R.2 := rfl
          rw [hw]
          exact Or.inr ⟨s2, h2, (pipeEvents_warn _ R.2).trans h3⟩
      | false =>
        rw [if_neg (by simp)]
        rcases hact with hL | ⟨ha, s2, h2, h3⟩
        · exact Or.inl ((pipeEvents_abortFn_none cfg R.2).trans hL)
        · exact Or.inr ⟨s2, h2, (pipeEvents_abortFn_none cfg R.2).trans h3⟩
    · rw [if_neg heb]
      rcases hact with hL | ⟨ha, s2, h2, h3⟩
      · exact Or.inl hL
      · exact Or.inr ⟨s2, h2, h3⟩
  | hPromise pb =>
    cases pb with
    | resolves v =>
      have he : cfg.callHook ⟨acts, HookRet.hPromise (PromiseB.resolves v)⟩
          (some (fun _ s2 => k s2)) eb none s =
          (if eb then
            (if truthy v then
              (nextFn (some (fun _ s2 => k s2)) none R.1 R.2).2
             else abortFn cfg none R.2)
           else (nextFn (some (fun _ s2 => k s2)) (some v) R.1 R.2).2) := by
        unfold Transition.callHook
        rw [hR]
      rw [he]
      by_cases heb : eb = true
      · rw [if_pos heb]
        by_cases hv : truthy v = true
        · rw [if_pos hv]
          rcases hact with hL | ⟨ha, s2, h2, h3⟩
          · rcases nextFn_snd_cases k none R.1 R.2 with hn | hn
            · exact Or.inl (hn.trans hL)
            · exact Or.inr ⟨R.2, hL, by rw [hn]⟩
          · rw [ha]
            have hw : (nextFn (some (fun _ s2 => k s2)) none true R.2).2 =
                emit (Ev.evWarn nextOnceMsg) R.2 := rfl
            rw [hw]
            exact Or.inr ⟨s2, h2, (pipeEvents_warn _ R.2).trans h3⟩
        · rw [if_neg hv]
          rcases hact with hL | ⟨ha, s2, h2, h3⟩
          · exact Or.inl ((pipeEvents_abortFn_none cfg R.2).trans hL)
          · exact Or.inr ⟨s2, h2, (pipeEvents_abortFn_none cfg R.2).trans h3⟩
      · rw [if_neg heb]
        rcases hact with hL | ⟨ha, s2, h2, h3⟩
        · rcases nextFn_snd_cases k (some v) R.1 R.2 with hn | hn
          · exact Or.inl (hn.trans hL)
          · exact Or.inr ⟨R.2, hL, by rw [hn]⟩
        · rw [ha]
          have hw : (nextFn (some (fun _ s2 => k s2)) (some v) true R.2).2 =
              emit (Ev.evWarn nextOnceMsg) R.2 := rfl
          rw [hw]
          exact Or.inr ⟨s2, h2, (pipeEvents_warn _ R.2).trans h3⟩
    | rejects e =>
      have he : cfg.callHook ⟨acts, HookRet.hPromise (PromiseB.rejects e)⟩
          (some (fun _ s2 => k s2)) eb none s =
          (onErrorFn cfg (some (fun _ s2 => k s2)) none false e R.1 R.2).2 := by
        unfold Transition.callHook
        rw [hR]
      rw [he]
      rcases hact with hL | ⟨ha, s2, h2, h3⟩
      · exact Or.inl ((pipeEvents_onErrorFn_none cfg _ false e R.1 R.2).trans hL)
      · exact Or.inr ⟨s2, h2,
          (pipeEvents_onErrorFn_none cfg _ false e R.1 R.2).trans h3⟩
    | pending =>
      have he : cfg.callHook ⟨acts, HookRet.hPromise PromiseB.pending⟩
          (some (fun _ s2 => k s2)) eb none s = R.2 := by
        unfold Transition.callHook
        rw [hR]
      rw [he]
      rcases hact with hL | ⟨ha, s2, h2, h3⟩
      · exact Or.inl hL
      · exact Or.inr ⟨s2, h2, h3⟩
  | hOther =>
    have he : cfg.callHook ⟨acts, HookRet.hOther⟩
        (some (fun _ s2 => k s2)) eb none s = R.2 := by
      unfold Transition.callHook
      rw [hR]
    rw [he]
    rcases hact with hL | ⟨ha, s2, h2, h3⟩
    · exact Or.inl hL
    · exact Or.inr ⟨s2, h2, h3⟩

theorem runQueue_pfilter {α : Type} (cfg : Transition) (B : α → HookRun)
    (mkEv : α → Ev V H) (eb : Bool) (hmk : ∀ x, isPipe (mkEv x) = true)
    (done : St V H → St V H) :
    ∀ (xs : List α) (s : St V H),
      (∃ m, m ≤ xs.length ∧
        pipeEvents (runQueue (stepHook cfg B mkEv eb) done xs s) =
          pipeEvents s ++ (xs.take m).map mkEv) ∨
      (∃ s2, pipeEvents s2 = pipeEvents s ++ xs.map mkEv ∧
        pipeEvents (runQueue (stepHook cfg B mkEv eb) done xs s) =
          pipeEvents (done s2)) := by
  intro xs
  induction xs with
  | nil =>
    intro s
    exact Or.inr ⟨s, by simp, rfl⟩
  | cons x xs ih =>
    intro s
    have hstep : runQueue (stepHook cfg B mkEv eb) done (x :: xs) s =
        cfg.callHook (B x) (some (fun _ s2 =>
          runQueue (stepHook cfg B mkEv eb) done xs s2)) eb none
          (emit (mkEv x) s) := rfl
    rw [hstep]
    have hemit : pipeEvents (emit (mkEv x) s) = pipeEvents s ++ [mkEv x] :=
      pipeEvents_emit_pos _ s (hmk x)
    rcases callHook_pfilter cfg (B x)
        (fun s2 => runQueue (stepHook cfg B mkEv eb) done xs s2) eb
        (emit (mkEv x) s) with hL | ⟨s2, h2, h3⟩
    · refine Or.inl ⟨1, by simp, ?_⟩
      rw [hL, hemit]
      simp
    · have h2s : pipeEvents s2 = pipeEvents s ++ [mkEv x] := h2.trans hemit
      rcases ih s2 with ⟨m, hm, hQ⟩ | ⟨s3, hs3, hQ⟩
      · refine Or.inl ⟨m + 1, by simpa using Nat.succ_le_succ hm, ?_⟩
        rw [h3, hQ, h2s]
        simp [List.append_assoc]
      · refine Or.inr ⟨s3, ?_, h3.trans hQ⟩
        rw [hs3, h2s]
        simp [List.append_assoc]

theorem filter_map_pos {α : Type} (g : Ev V H → Bool) (f : α → Ev V H)
    (hf : ∀ x, g (f x) = true) (l : List α) :
    (l.map f).filter g = l.map f := by
  induction l with
  | nil => rfl
  | cons x l ih => simp [List.filter, hf, ih]

theorem filter_map_neg {α : Type} (g : Ev V H → Bool) (f : α → Ev V H)
    (hf : ∀ x, g (f x) = false) (l : List α) :
    (l.map f).filter g = [] := by
  induction l with
  | nil => rfl
  | cons x l ih => simp [List.filter, hf, ih]

/-- The pipeline events `activatePhase` appends: the commit-point update,
the reuse notifications, then the single activation (with the final `cb`)
or the direct `cb`. -/
def commitTail (toPath : String) (daq rq : List V) : List (Ev V H) :=
  Ev.evUpdateRoute toPath :: (rq.map Ev.evReuse ++
    (match daq.getLast? with
     | some v => [Ev.evActivate v rq.length, Ev.evDone]
     | none => [Ev.evDone]))

theorem foldl_reuse_trace (rq : List V) :
    ∀ s : St V H,
      (rq.foldl (fun acc v => emit (Ev.evReuse v) acc) s).trace =
        s.trace ++ rq.map Ev.evReuse := by
  induction rq with
  | nil => intro s; simp
  | cons v rq ih =>
    intro s
    simp only [List.foldl, List.map_cons]
    rw [ih (emit (Ev.evReuse v) s)]
    simp [emit]

theorem pipeEvents_activatePhase (cfg : Transition) (rqO : Option (List V))
    (daq : List V) (s3 : St V H) :
    pipeEvents (activatePhase cfg rqO daq s3) =
      pipeEvents s3 ++ commitTail cfg.toPath daq (rqO.getD []) := by
  unfold activatePhase commitTail pipeEvents
  cases hd : daq.getLast? with
  | some v =>
    simp only [emit_trace, foldl_reuse_trace, List.filter_append]
    rw [filter_map_pos isPipe Ev.evReuse (fun x => rfl)]
    simp [List.filter, isPipe]
  | none =>
    simp only [emit_trace, foldl_reuse_trace, List.filter_append]
    rw [filter_map_pos isPipe Ev.evReuse (fun x => rfl)]
    simp [List.filter, isPipe]

theorem deactivatePhase_shape (cfg : Transition) (Bd : V → HookRun)
    (rqO : Option (List V)) (daq : List V) (s2 : St V H) :
    (∃ m, m ≤ daq.length ∧
      pipeEvents (deactivatePhase cfg Bd rqO daq s2) =
        pipeEvents s2 ++ (daq.take m).map Ev.evDeactivate) ∨
    (pipeEvents (deactivatePhase cfg Bd rqO daq s2) =
      pipeEvents s2 ++ daq.map Ev.evDeactivate ++
        commitTail cfg.toPath daq (rqO.getD [])) := by
  unfold deactivatePhase deactivateStep
  rcases runQueue_pfilter cfg Bd Ev.evDeactivate false (fun x => rfl)
      (activatePhase cfg rqO daq) daq s2 with ⟨m, hm, hQ⟩ | ⟨s3, h3, hQ⟩
  · exact Or.inl ⟨m, hm, hQ⟩
  · refine Or.inr ?_
    rw [hQ, pipeEvents_activatePhase, h3]

theorem canActivatePhase_shape (cfg : Transition) (Bca : H → HookRun)
    (Bd : V → HookRun) (rqO : Option (List V)) (daq : List V) (aq : List H)
    (s1 : St V H) :
    (∃ m, m ≤ aq.length ∧
      pipeEvents (canActivatePhase cfg Bca Bd rqO daq aq s1) =
        pipeEvents s1 ++ (aq.take m).map Ev.evCanActivate) ∨
    (∃ m, m ≤ daq.length ∧
      pipeEvents (canActivatePhase cfg Bca Bd rqO daq aq s1) =
        pipeEvents s1 ++ aq.map Ev.evCanActivate ++
          (daq.take m).map Ev.evDeactivate) ∨
    (pipeEvents (canActivatePhase cfg Bca Bd rqO daq aq s1) =
      pipeEvents s1 ++ aq.map Ev.evCanActivate ++
        daq.map Ev.evDeactivate ++ commitTail cfg.toPath daq (rqO.getD [])) := by
  unfold canActivatePhase canActivateStep
  rcases runQueue_pfilter cfg Bca Ev.evCanActivate true (fun x => rfl)
      (deactivatePhase cfg Bd rqO daq) aq s1 with ⟨m, hm, hQ⟩ | ⟨s2, h2, hQ⟩
  · exact Or.inl ⟨m, hm, hQ⟩
  · rcases deactivatePhase_shape cfg Bd rqO daq s2 with ⟨m, hm, hD⟩ | hD
    · refine Or.inr (Or.inl ⟨m, hm, ?_⟩)
      rw [hQ, hD, h2]
      try simp [List.append_assoc]
    · refine Or.inr (Or.inr ?_)
      rw [hQ, hD, h2]
      try simp [List.append_assoc]

theorem start_shape (cfg : Transition) (cr : V → Option H → Bool)
    (Bcd : V → HookRun) (Bca : H → HookRun) (Bd : V → HookRun)
    (daq0 : List V) (aq0 : List H) (s : St V H) :
    (∃ m, m ≤ (phase1 cr daq0 aq0).2.1.length ∧
      pipeEvents (cfg.start cr Bcd Bca Bd daq0 aq0 s) =
        pipeEvents s ++
          ((phase1 cr daq0 aq0).2.1.take m).map Ev.evCanDeactivate) ∨
    (∃ m, m ≤ (phase1 cr daq0 aq0).2.2.length ∧
      pipeEvents (cfg.start cr Bcd Bca Bd daq0 aq0 s) =
        pipeEvents s ++
          (phase1 cr daq0 aq0).2.1.map Ev.evCanDeactivate ++
          ((phase1 cr daq0 aq0).2.2.take m).map Ev.evCanActivate) ∨
    (∃ m, m ≤ (phase1 cr daq0 aq0).2.1.length ∧
      pipeEvents (cfg.start cr Bcd Bca Bd daq0 aq0 s) =
        pipeEvents s ++
          (phase1 cr daq0 aq0).2.1.map Ev.evCanDeactivate ++
          (phase1 cr daq0 aq0).2.2.map Ev.evCanActivate ++
          ((phase1 cr daq0 aq0).2.1.take m).map Ev.evDeactivate) ∨
    (pipeEvents (cfg.start cr Bcd Bca Bd daq0 aq0 s) =
      pipeEvents s ++
        (phase1 cr daq0 aq0).2.1.map Ev.evCanDeactivate ++
        (phase1 cr daq0 aq0).2.2.map Ev.evCanActivate ++
        (phase1 cr daq0 aq0).2.1.map Ev.evDeactivate ++
        commitTail cfg.toPath (phase1 cr daq0 aq0).2.1
          ((phase1 cr daq0 aq0).1.getD [])) := by
  unfold Transition.start canDeactivateStep
  rcases runQueue_pfilter cfg Bcd Ev.evCanDeactivate true (fun x => rfl)
      (canActivatePhase cfg Bca Bd (phase1 cr daq0 aq0).1
        (phase1 cr daq0 aq0).2.1 (phase1 cr daq0 aq0).2.2)
      (phase1 cr daq0 aq0).2.1 s with ⟨m, hm, hQ⟩ | ⟨s1, h1, hQ⟩
  · exact Or.inl ⟨m, hm, hQ⟩
  · rcases canActivatePhase_shape cfg Bca Bd (phase1 cr daq0 aq0).1
        (phase1 cr daq0 aq0).2.1 (phase1 cr daq0 aq0).2.2 s1 with
      ⟨m, hm, hA⟩ | ⟨m, hm, hA⟩ | hA
    · refine Or.inr (Or.inl ⟨m, hm, ?_⟩)
      rw [hQ, hA, h1]
      try simp [List.append_assoc]
    · refine Or.inr (Or.inr (Or.inl ⟨m, hm, ?_⟩))
      rw [hQ, hA, h1]
      try simp [List.append_assoc]
    · refine Or.inr (Or.inr (Or.inr ?_))
      rw [hQ, hA, h1]
      try simp [List.append_assoc]

/-! ## Ordering predicates over traces -/

def isCDev : Ev V H → Bool
  | Ev.evCanDeactivate _ => true
  | _ => false

def isCAev : Ev V H → Bool
  | Ev.evCanActivate _ => true
  | _ => false

def isDev : Ev V H → Bool
  | Ev.evDeactivate _ => true
  | _ => false

def isUev : Ev V H → Bool
  | Ev.evUpdateRoute _ => true
  | _ => false

def isReActev : Ev V H → Bool
  | Ev.evReuse _ => true
  | Ev.evActivate _ _ => true
  | _ => false

def isActev : Ev V H → Bool
  | Ev.evActivate _ _ => true
  | _ => false

/-- `noneAfter p q t`: within `t`, no `q`-event occurs strictly after any
`p`-event. -/
def noneAfter (p q : Ev V H → Bool) : List (Ev V H) → Bool
  | [] => true
  | e :: rest => (!p e || rest.all (fun x => !q x)) && noneAfter p q rest

/-- `precededBy p q t seen`: every `q`-event of `t` has a `p`-event
strictly before it (`seen`: whether one already occurred). -/
def precededBy (p q : Ev V H → Bool) : List (Ev V H) → Bool → Bool
  | [], _ => true
  | e :: rest, seen => (!q e || seen) && precededBy p q rest (seen || p e)

theorem all_not_map {α : Type} (p : Ev V H → Bool) (f : α → Ev V H)
    (hf : ∀ x, p (f x) = false) (l : List α) :
    (l.map f).all (fun e => !p e) = true := by
  induction l with
  | nil => rfl
  | cons x l ih => simp [hf, ih]

theorem noneAfter_of_all_notp (p q : Ev V H → Bool) :
    ∀ t : List (Ev V H), t.all (fun e => !p e) = true →
      noneAfter p q t = true := by
  intro t
  induction t with
  | nil => intro _; rfl
  | cons e rest ih =>
    intro h
    simp only [List.all_cons, Bool.and_eq_true] at h
    simp [noneAfter, h.1, ih h.2]

theorem noneAfter_of_all_notq (p q : Ev V H → Bool) :
    ∀ t : List (Ev V H), t.all (fun e => !q e) = true →
      noneAfter p q t = true := by
  intro t
  induction t with
  | nil => intro _; rfl
  | cons e rest ih =>
    intro h
    simp only [List.all_cons, Bool.and_eq_true] at h
    simp [noneAfter, h.2, ih h.2]

theorem noneAfter_of_split (p q : Ev V H → Bool) :
    ∀ (t1 t2 : List (Ev V H)), t1.all (fun e => !p e) = true →
      t2.all (fun e => !q e) = true →
      noneAfter p q (t1 ++ t2) = true := by
  intro t1
  induction t1 with
  | nil => intro t2 _ h2; exact noneAfter_of_all_notq p q t2 h2
  | cons e t1 ih =>
    intro t2 h1 h2
    simp only [List.all_cons, Bool.and_eq_true] at h1
    simp [noneAfter, h1.1, ih t2 h1.2 h2]

theorem precededBy_seen_true (p q : Ev V H → Bool) :
    ∀ t : List (Ev V H), precededBy p q t true = true := by
  intro t
  induction t with
  | nil => rfl
  | cons e rest ih => simp [precededBy, ih]

theorem precededBy_of_all_notq (p q : Ev V H → Bool) :
    ∀ (t : List (Ev V H)) (seen : Bool), t.all (fun e => !q e) = true →
      precededBy p q t seen = true := by
  intro t
  induction t with
  | nil => intro seen _; rfl
  | cons e rest ih =>
    intro seen h
    simp only [List.all_cons, Bool.and_eq_true] at h
    simp [precededBy, h.1, ih _ h.2]

theorem precededBy_split_aux (p q : Ev V H → Bool) :
    ∀ (t1 : List (Ev V H)) (seen : Bool) (t2 : List (Ev V H)),
      t1.all (fun e => !q e) = true → (seen || t1.any p) = true →
      precededBy p q (t1 ++ t2) seen = true := by
  intro t1
  induction t1 with
  | nil =>
    intro seen t2 _ h2
    simp only [List.any_nil, Bool.or_false] at h2
    rw [List.nil_append, h2]
    exact precededBy_seen_true p q t2
  | cons e t1 ih =>
    intro seen t2 h1 h2
    simp only [List.all_cons, Bool.and_eq_true] at h1
    rw [List.cons_append]
    simp only [precededBy, h1.1, Bool.true_or, Bool.true_and]
    refine ih (seen || p e) t2 h1.2 ?_
    simp only [List.any_cons] at h2
    cases hs : seen <;> cases hp : p e <;> simp_all

theorem precededBy_split (p q : Ev V H → Bool) (t1 t2 : List (Ev V H))
    (h1 : t1.all (fun e => !q e) = true) (h2 : t1.any p = true) :
    precededBy p q (t1 ++ t2) false = true :=
  precededBy_split_aux p q t1 false t2 h1 (by simp [h2])

theorem commitTail_all_not (p : Ev V H → Bool) (toPath : String)
    (daq rq : List V) (hU : ∀ pa, p (Ev.evUpdateRoute pa) = false)
    (hR : ∀ v, p (Ev.evReuse v) = false)
    (hA : ∀ v d, p (Ev.evActivate v d) = false)
    (hD : p Ev.evDone = false) :
    (commitTail toPath daq rq : List (Ev V H)).all (fun e => !p e) = true := by
  unfold commitTail
  cases daq.getLast? <;>
    simp [List.all_append, hU, hR, hA, hD, all_not_map p Ev.evReuse hR]

theorem commitTail_filter_eq_nil (g : Ev V H → Bool) (toPath : String)
    (daq rq : List V) (hU : ∀ pa, g (Ev.evUpdateRoute pa) = false)
    (hR : ∀ v, g (Ev.evReuse v) = false)
    (hA : ∀ v d, g (Ev.evActivate v d) = false)
    (hD : g Ev.evDone = false) :
    (commitTail toPath daq rq : List (Ev V H)).filter g = [] := by
  unfold commitTail
  cases daq.getLast? <;>
    simp [List.filter_append, List.filter_cons, hU, hR, hA, hD,
      filter_map_neg g Ev.evReuse hR]

theorem commitTail_filter_act (toPath : String) (daq rq : List V) :
    ((commitTail toPath daq rq : List (Ev V H)).filter isActev).length ≤ 1 := by
  unfold commitTail
  cases daq.getLast? <;>
    simp [List.filter_append, List.filter_cons, isActev,
      filter_map_neg isActev Ev.evReuse (fun _ => rfl)]

theorem bool_and_intro {a b : Bool} (ha : a = true) (hb : b = true) :
    (a && b) = true := by
  rw [ha, hb]
  rfl

/-! ## Claim C7: strict phase ordering -/

/-- C7 (confirmed, over the pipeline-event subsequence of the trace, with
the step wrappers modelled from the spec): in any run of `start`, every
`canDeactivate` dispatch precedes every `canActivate` dispatch; no
`deactivate` dispatch occurs after the commit-point location update; every
`reuse` notification and the single `activate` call are strictly preceded
by the commit-point update; at most one `activate` call ever occurs; and
within each queue the dispatched items form, in order, a prefix of that
(phase-1-trimmed) queue — item `i + 1` is dispatched only when item `i`'s
advance fired, since the only way the runner continues is the `nextStep`
continuation. -/
theorem c7_phase_ordering (cfg : Transition) (cr : V → Option H → Bool)
    (Bcd : V → HookRun) (Bca : H → HookRun) (Bd : V → HookRun)
    (daq0 : List V) (aq0 : List H) (s : St V H) (hs : s.trace = []) :
    noneAfter isCAev isCDev
      (pipeEvents (cfg.start cr Bcd Bca Bd daq0 aq0 s)) = true ∧
    noneAfter isUev isDev
      (pipeEvents (cfg.start cr Bcd Bca Bd daq0 aq0 s)) = true ∧
    precededBy isUev isReActev
      (pipeEvents (cfg.start cr Bcd Bca Bd daq0 aq0 s)) false = true ∧
    (∃ m, (pipeEvents (cfg.start cr Bcd Bca Bd daq0 aq0 s)).filter isCDev =
      ((phase1 cr daq0 aq0).2.1.take m).map Ev.evCanDeactivate) ∧
    (∃ m, (pipeEvents (cfg.start cr Bcd Bca Bd daq0 aq0 s)).filter isCAev =
      ((phase1 cr daq0 aq0).2.2.take m).map Ev.evCanActivate) ∧
    (∃ m, (pipeEvents (cfg.start cr Bcd Bca Bd daq0 aq0 s)).filter isDev =
      ((phase1 cr daq0 aq0).2.1.take m).map Ev.evDeactivate) ∧
    ((pipeEvents (cfg.start cr Bcd Bca Bd daq0 aq0 s)).filter
      isActev).length ≤ 1 := by
  have hbase : pipeEvents s = [] := by
    unfold pipeEvents
    rw [hs]
    rfl
  rcases start_shape cfg cr Bcd Bca Bd daq0 aq0 s with
    ⟨m, hm, hT⟩ | ⟨m, hm, hT⟩ | ⟨m, hm, hT⟩ | hT <;>
    rw [hbase] at hT <;> simp only [List.nil_append] at hT <;> rw [hT]
  · -- halted inside the canDeactivate queue
    refine ⟨?_, ?_, ?_, ⟨m, ?_⟩, ⟨0, ?_⟩, ⟨0, ?_⟩, ?_⟩
    · exact noneAfter_of_all_notp _ _ _
        (all_not_map isCAev Ev.evCanDeactivate (fun _ => rfl) _)
    · exact noneAfter_of_all_notp _ _ _
        (all_not_map isUev Ev.evCanDeactivate (fun _ => rfl) _)
    · exact precededBy_of_all_notq _ _ _ false
        (all_not_map isReActev Ev.evCanDeactivate (fun _ => rfl) _)
    · exact filter_map_pos isCDev Ev.evCanDeactivate (fun _ => rfl) _
    · rw [filter_map_neg isCAev Ev.evCanDeactivate (fun _ => rfl)]
      simp
    · rw [filter_map_neg isDev Ev.evCanDeactivate (fun _ => rfl)]
      simp
    · rw [filter_map_neg isActev Ev.evCanDeactivate (fun _ => rfl)]
      simp
  · -- halted inside the canActivate queue
    refine ⟨?_, ?_, ?_, ⟨(phase1 cr daq0 aq0).2.1.length, ?_⟩, ⟨m, ?_⟩,
      ⟨0, ?_⟩, ?_⟩
    · exact noneAfter_of_split _ _ _ _
        (all_not_map isCAev Ev.evCanDeactivate (fun _ => rfl) _)
        (all_not_map isCDev Ev.evCanActivate (fun _ => rfl) _)
    · refine noneAfter_of_all_notp _ _ _ ?_
      rw [List.all_append]
      exact bool_and_intro (all_not_map isUev Ev.evCanDeactivate (fun _ => rfl) _) (all_not_map isUev Ev.evCanActivate (fun _ => rfl) _)
    · refine precededBy_of_all_notq _ _ _ false ?_
      rw [List.all_append]
      exact bool_and_intro (all_not_map isReActev Ev.evCanDeactivate (fun _ => rfl) _) (all_not_map isReActev Ev.evCanActivate (fun _ => rfl) _)
    · rw [List.filter_append,
        filter_map_pos isCDev Ev.evCanDeactivate (fun _ => rfl),
        filter_map_neg isCDev Ev.evCanActivate (fun _ => rfl),
        List.take_length]
      simp
    · rw [List.filter_append,
        filter_map_neg isCAev Ev.evCanDeactivate (fun _ => rfl),
        filter_map_pos isCAev Ev.evCanActivate (fun _ => rfl)]
      simp
    · rw [List.filter_append,
        filter_map_neg isDev Ev.evCanDeactivate (fun _ => rfl),
        filter_map_neg isDev Ev.evCanActivate (fun _ => rfl)]
      simp
    · rw [List.filter_append,
        filter_map_neg isActev Ev.evCanDeactivate (fun _ => rfl),
        filter_map_neg isActev Ev.evCanActivate (fun _ => rfl)]
      simp
  · -- halted inside the deactivate queue
    refine ⟨?_, ?_, ?_, ⟨(phase1 cr daq0 aq0).2.1.length, ?_⟩,
      ⟨(phase1 cr daq0 aq0).2.2.length, ?_⟩, ⟨m, ?_⟩, ?_⟩
    · rw [List.append_assoc]
      refine noneAfter_of_split _ _ _ _
        (all_not_map isCAev Ev.evCanDeactivate (fun _ => rfl) _) ?_
      rw [List.all_append]
      exact bool_and_intro (all_not_map isCDev Ev.evCanActivate (fun _ => rfl) _) (all_not_map isCDev Ev.evDeactivate (fun _ => rfl) _)
    · refine noneAfter_of_all_notp _ _ _ ?_
      rw [List.all_append, List.all_append]
      exact bool_and_intro (bool_and_intro (all_not_map isUev Ev.evCanDeactivate (fun _ => rfl) _) (all_not_map isUev Ev.evCanActivate (fun _ => rfl) _)) (all_not_map isUev Ev.evDeactivate (fun _ => rfl) _)
    · refine precededBy_of_all_notq _ _ _ false ?_
      rw [List.all_append, List.all_append]
      exact bool_and_intro (bool_and_intro (all_not_map isReActev Ev.evCanDeactivate (fun _ => rfl) _) (all_not_map isReActev Ev.evCanActivate (fun _ => rfl) _)) (all_not_map isReActev Ev.evDeactivate (fun _ => rfl) _)
    · rw [List.filter_append, List.filter_append,
        filter_map_pos isCDev Ev.evCanDeactivate (fun _ => rfl),
        filter_map_neg isCDev Ev.evCanActivate (fun _ => rfl),
        filter_map_neg isCDev Ev.evDeactivate (fun _ => rfl),
        List.take_length]
      simp
    · rw [List.filter_append, List.filter_append,
        filter_map_neg isCAev Ev.evCanDeactivate (fun _ => rfl),
        filter_map_pos isCAev Ev.evCanActivate (fun _ => rfl),
        filter_map_neg isCAev Ev.evDeactivate (fun _ => rfl),
        List.take_length]
      simp
    · rw [List.filter_append, List.filter_append,
        filter_map_neg isDev Ev.evCanDeactivate (fun _ => rfl),
        filter_map_neg isDev Ev.evCanActivate (fun _ => rfl),
        filter_map_pos isDev Ev.evDeactivate (fun _ => rfl)]
      simp
    · rw [List.filter_append, List.filter_append,
        filter_map_neg isActev Ev.evCanDeactivate (fun _ => rfl),
        filter_map_neg isActev Ev.evCanActivate (fun _ => rfl),
        filter_map_neg isActev Ev.evDeactivate (fun _ => rfl)]
      simp
  · -- the full pipeline ran to the commit phase
    refine ⟨?_, ?_, ?_, ⟨(phase1 cr daq0 aq0).2.1.length, ?_⟩,
      ⟨(phase1 cr daq0 aq0).2.2.length, ?_⟩,
      ⟨(phase1 cr daq0 aq0).2.1.length, ?_⟩, ?_⟩
    · rw [List.append_assoc, List.append_assoc]
      refine noneAfter_of_split _ _ _ _
        (all_not_map isCAev Ev.evCanDeactivate (fun _ => rfl) _) ?_
      rw [List.all_append, List.all_append]
      exact bool_and_intro (all_not_map isCDev Ev.evCanActivate (fun _ => rfl) _) (bool_and_intro (all_not_map isCDev Ev.evDeactivate (fun _ => rfl) _) (commitTail_all_not isCDev cfg.toPath _ _ (fun _ => rfl)
                (fun _ => rfl) (fun _ _ => rfl) rfl))
    · refine noneAfter_of_split _ _ _ _ ?_
        (commitTail_all_not isDev cfg.toPath _ _ (fun _ => rfl)
          (fun _ => rfl) (fun _ _ => rfl) rfl)
      rw [List.all_append, List.all_append]
      exact bool_and_intro (bool_and_intro (all_not_map isUev Ev.evCanDeactivate (fun _ => rfl) _) (all_not_map isUev Ev.evCanActivate (fun _ => rfl) _)) (all_not_map isUev Ev.evDeactivate (fun _ => rfl) _)
    · rw [commitTail, List.append_cons]
      refine precededBy_split _ _ _ _ ?_ ?_
      · rw [List.all_append, List.all_append, List.all_append]
        refine bool_and_intro (bool_and_intro (bool_and_intro (all_not_map isReActev Ev.evCanDeactivate (fun _ => rfl) _) (all_not_map isReActev Ev.evCanActivate (fun _ => rfl) _)) (all_not_map isReActev Ev.evDeactivate (fun _ => rfl) _)) (?_)
        rfl
      · rw [List.any_append]
        simp [isUev]
    · rw [List.filter_append, List.filter_append, List.filter_append,
        filter_map_pos isCDev Ev.evCanDeactivate (fun _ => rfl),
        filter_map_neg isCDev Ev.evCanActivate (fun _ => rfl),
        filter_map_neg isCDev Ev.evDeactivate (fun _ => rfl),
        commitTail_filter_eq_nil isCDev cfg.toPath _ _ (fun _ => rfl)
          (fun _ => rfl) (fun _ _ => rfl) rfl,
        List.take_length]
      simp
    · rw [List.filter_append, List.filter_append, List.filter_append,
        filter_map_neg isCAev Ev.evCanDeactivate (fun _ => rfl),
        filter_map_pos isCAev Ev.evCanActivate (fun _ => rfl),
        filter_map_neg isCAev Ev.evDeactivate (fun _ => rfl),
        commitTail_filter_eq_nil isCAev cfg.toPath _ _ (fun _ => rfl)
          (fun _ => rfl) (fun _ _ => rfl) rfl,
        List.take_length]
      simp
    · rw [List.filter_append, List.filter_append, List.filter_append,
        filter_map_neg isDev Ev.evCanDeactivate (fun _ => rfl),
        filter_map_neg isDev Ev.evCanActivate (fun _ => rfl),
        filter_map_pos isDev Ev.evDeactivate (fun _ => rfl),
        commitTail_filter_eq_nil isDev cfg.toPath _ _ (fun _ => rfl)
          (fun _ => rfl) (fun _ _ => rfl) rfl,
        List.take_length]
      simp
    · rw [List.filter_append, List.filter_append, List.filter_append,
        filter_map_neg isActev Ev.evCanDeactivate (fun _ => rfl),
        filter_map_neg isActev Ev.evCanActivate (fun _ => rfl),
        filter_map_neg isActev Ev.evDeactivate (fun _ => rfl)]
      simpa using commitTail_filter_act cfg.toPath _ _

/-- Witness for C7 at a concrete run (fresh state, two-view chain). -/
theorem c7_witness :
    noneAfter isCAev isCDev
      (pipeEvents (Transition.start cfg0 crEx BcdC BcaC BdC [2, 1] [1, 3]
        s0)) = true :=
  (c7_phase_ordering cfg0 crEx BcdC BcaC BdC [2, 1] [1, 3] s0 rfl).1
